import Mathlib

/-!
# A verification development for the `lisbeth` parser-support crates

The Rust sources are shallowly embedded:
* Rust `&str` values become `List Char`; byte offsets are recovered through
  `Char.utf8Size`.
* panicking operations (`str::split_at` on a non-boundary index, arithmetic
  underflow on `usize`, failed `assert_eq!`, out-of-bounds indexing) are
  modelled by `Option`-returning functions, `none` standing for a panic.
* `u32`/`usize` fields become `Nat`; the claims under study only involve
  quantities far below the overflow thresholds, and the overflow behaviour is
  never what a claim is about.

Sources: `lisbeth-error/src/span.rs`, `lisbeth-error/src/error.rs`,
`lisbeth-error/src/reporter.rs`, `lisbeth-parser/src/lexer.rs`.
-/

namespace Lisbeth

/-- The UTF-8 byte length of a string modelled as a list of chars
(`str::len` in Rust). -/
def strByteLen (s : List Char) : Nat := (s.map Char.utf8Size).sum

/-- `Position` from `span.rs`: a 0-indexed line/column pair plus a byte
offset. -/
structure Position where
  line : Nat
  col : Nat
  offset : Nat
deriving Repr, DecidableEq

/-- `Position::BEGINNING`. -/
def Position.BEGINNING : Position := ⟨0, 0, 0⟩

/-- `Position::advance_with`: scan the chars updating line/column, then add the
byte length to the offset. -/
def Position.advance_with (p : Position) (s : List Char) : Position :=
  let lc := s.foldl
    (fun (acc : Nat × Nat) c => if c = '\n' then (acc.1 + 1, 0) else (acc.1, acc.2 + 1))
    (p.line, p.col)
  { line := lc.1, col := lc.2, offset := p.offset + strByteLen s }

/-- `Span` from `span.rs`; the Rust field `end` is called `endPos` here because
`end` is a Lean keyword. -/
structure Span where
  start : Position
  endPos : Position
deriving Repr, DecidableEq

/-- `Span::split_with`. -/
def Span.split_with (s : Span) (mid : Position) : Span × Span :=
  (⟨s.start, mid⟩, ⟨mid, s.endPos⟩)

/-- `Span::of_file`. -/
def Span.of_file (input : List Char) : Span :=
  { start := Position.BEGINNING, endPos := Position.BEGINNING.advance_with input }

/-- `Span::next_char`. -/
def Span.next_char (s : Span) : Span :=
  { start := s.endPos, endPos := s.endPos.advance_with [' '] }

/-- `SpannedStr` from `span.rs`. -/
structure SpannedStr where
  span : Span
  content : List Char
deriving Repr, DecidableEq

/-- `SpannedStr::input_file`. -/
def SpannedStr.input_file (content : List Char) : SpannedStr :=
  { span := Span.of_file content, content }

/-- `str::split_at` on a byte index; `none` models the panic on an
out-of-bounds index or an index that is not a UTF-8 char boundary. -/
def strSplitAt : List Char → Nat → Option (List Char × List Char)
  | s, n =>
    if n = 0 then some ([], s)
    else
      match s with
      | [] => none
      | c :: cs =>
        if c.utf8Size ≤ n then
          (strSplitAt cs (n - c.utf8Size)).map fun p => (c :: p.1, p.2)
        else none

/-- `SpannedStr::split_at`: split the content at a byte index, and split the
span at the position reached by advancing over the left content. -/
def SpannedStr.split_at (s : SpannedStr) (idx : Nat) : Option (SpannedStr × SpannedStr) :=
  (strSplitAt s.content idx).map fun lr =>
    let mid := s.span.start.advance_with lr.1
    let spans := s.span.split_with mid
    (⟨spans.1, lr.1⟩, ⟨spans.2, lr.2⟩)

/-- The index computation of `SpannedStr::take_while`:
`content.char_indices().find(|(_, chr)| !f(*chr)).map(|(idx, _)| idx)`,
with `acc` the byte index of the current char. -/
def findSplitIdx (f : Char → Bool) : List Char → Nat → Option Nat
  | [], _ => none
  | c :: cs, acc => if ¬ f c then some acc else findSplitIdx f cs (acc + c.utf8Size)

/-- `SpannedStr::take_while`. -/
def SpannedStr.take_while (s : SpannedStr) (f : Char → Bool) :
    Option (SpannedStr × SpannedStr) :=
  let idx := (findSplitIdx f s.content 0).getD (strByteLen s.content)
  s.split_at idx

/-! ## `error.rs` -/

/-- `error::Annotation`: a span plus a message. -/
structure Annotation where
  span : Span
  content : List Char
deriving Repr, DecidableEq

/-- `error::AnnotatedError`. -/
structure AnnotatedError where
  span : Span
  msg : List Char
  annotations : List Annotation
deriving Repr, DecidableEq

/-- `AnnotatedError::new`. -/
def AnnotatedError.new (span : Span) (msg : List Char) : AnnotatedError :=
  ⟨span, msg, []⟩

/-- `AnnotatedError::with_annotation` (a `Vec::push`). -/
def AnnotatedError.with_annotation (e : AnnotatedError) (span : Span) (msg : List Char) :
    AnnotatedError :=
  { e with annotations := e.annotations ++ [⟨span, msg⟩] }

/-- `AnnotatedError::all_spans`: annotation spans chained with the primary
span. -/
def AnnotatedError.all_spans (e : AnnotatedError) : List Span :=
  e.annotations.map (·.span) ++ [e.span]

/-- `Iterator::min` under the release-mode `Ord` for `Position` (offset only):
the first minimal element. -/
def iterMinPos : List Position → Option Position
  | [] => none
  | p :: ps => some (ps.foldl (fun m q => if q.offset < m.offset then q else m) p)

/-- `Iterator::max` under the release-mode `Ord` for `Position` (offset only):
the last maximal element. -/
def iterMaxPos : List Position → Option Position
  | [] => none
  | p :: ps => some (ps.foldl (fun m q => if m.offset ≤ q.offset then q else m) p)

/-- `AnnotatedError::bounds`. `all_spans` is never empty, so the `unwrap`s
(here `getD`) never see `none`. -/
def AnnotatedError.bounds (e : AnnotatedError) : Position × Position :=
  ((iterMinPos (e.all_spans.map Span.start)).getD Position.BEGINNING,
   (iterMaxPos (e.all_spans.map Span.endPos)).getD Position.BEGINNING)

/-- `reporter::Annotation`: the per-line render record. -/
structure RAnnotation where
  col_number : Nat
  length : Nat
  text : List Char
deriving Repr, DecidableEq

/-- The record built for one annotation inside `error_matrix`. -/
def Annotation.toRecord (a : Annotation) : RAnnotation :=
  ⟨a.span.start.col, a.span.endPos.col - a.span.start.col, a.content⟩

/-- The filling loop of `AnnotatedError::error_matrix`. `none` models a panic:
underflow of `line as usize - first_line_number`, the `assert_eq!` on
multi-line spans, underflow of `end.col - start.col`, or an out-of-bounds
`matrix[line_idx]`. -/
def matrixInsert (first_line : Nat) : List Annotation → List (List RAnnotation) →
    Option (List (List RAnnotation))
  | [], m => some m
  | ann :: rest, m =>
    if ann.span.start.line < first_line then none
    else
      let line_idx := ann.span.start.line - first_line
      if ann.span.start.line ≠ ann.span.endPos.line then none
      else if ann.span.endPos.col < ann.span.start.col then none
      else if h : line_idx < m.length then
        matrixInsert first_line rest (m.set line_idx (m[line_idx] ++ [ann.toRecord]))
      else none

/-- The comparison of `sort_by_key(|a| a.col_number)`. -/
def colLE (a b : RAnnotation) : Prop := a.col_number ≤ b.col_number

instance : DecidableRel colLE := fun _ _ => Nat.decLe _ _

instance : IsTotal RAnnotation colLE := ⟨fun _ _ => Nat.le_total _ _⟩

instance : IsTrans RAnnotation colLE := ⟨fun _ _ _ => Nat.le_trans⟩

/-- `AnnotatedError::error_matrix`: one row per line between the bounds, each
annotation pushed into its line's row, rows then sorted by start column.
`sort_by_key` is a stable sort; it is modelled by insertion sort, which is
also stable, and a stable sort of a list by a key is unique. -/
def AnnotatedError.error_matrix (e : AnnotatedError) :
    Option (List (List RAnnotation)) :=
  let bs := e.bounds
  let first_line := bs.1.line
  let last_line := bs.2.line
  if last_line < first_line then none
  else
    let total := last_line - first_line + 1
    (matrixInsert first_line e.annotations (List.replicate total [])).map fun m =>
      m.map fun anns => anns.insertionSort colLE

/-! ## `reporter.rs` -/

/-- `reporter::ErrorReporter`. -/
structure ErrorReporter where
  path : Option (List Char)
  content : List Char
  span : Span
deriving Repr, DecidableEq

/-- `ErrorReporter::input_file`. -/
def ErrorReporter.input_file (path content : List Char) : ErrorReporter :=
  ⟨some path, content, Span.of_file content⟩

/-- `ErrorReporter::non_file_input`. -/
def ErrorReporter.non_file_input (content : List Char) : ErrorReporter :=
  ⟨none, content, Span.of_file content⟩

/-- `ErrorReporter::spanned_str`. -/
def ErrorReporter.spanned_str (r : ErrorReporter) : SpannedStr :=
  ⟨r.span, r.content⟩

/-- `str::char_indices`, with `acc` the byte index of the first char. -/
def charIndices : List Char → Nat → List (Nat × Char)
  | [], _ => []
  | c :: cs, acc => (acc, c) :: charIndices cs (acc + c.utf8Size)

/-- The `end_idx` summand in `code_snippet_for`: byte index of the first
newline, or the byte length if there is none. -/
def findNlIdx (s : List Char) : Nat :=
  (((charIndices s 0).find? fun p => p.2 = '\n').map (·.1)).getD (strByteLen s)

/-- The `start_idx` computation in `code_snippet_for`:
`before_start.char_indices().rev().take_while(|(_, c)| *c != '\n').last()`,
i.e. the byte index of the first char after the last newline, defaulting to
the byte length. -/
def lastLineStart (s : List Char) : Nat :=
  ((((charIndices s 0).reverse.takeWhile fun p => p.2 ≠ '\n').getLast?).map (·.1)).getD
    (strByteLen s)

/-- `ErrorReporter::code_snippet_for`: the smallest run of full source lines
containing the two positions. `none` models the panics of the inner
`str::split_at` calls. -/
def ErrorReporter.code_snippet_for (r : ErrorReporter) (start_pos end_pos : Position) :
    Option (List Char) := do
  let bs ← strSplitAt r.content start_pos.offset
  let ae ← strSplitAt r.content end_pos.offset
  let before_start := bs.1
  let after_end := ae.2
  let end_idx := end_pos.offset + findNlIdx after_end
  let start_idx := lastLineStart before_start
  let upToEnd ← strSplitAt r.content end_idx
  let snip ← strSplitAt upToEnd.1 start_idx
  pure snip.2

/-- `reporter::FormattedError`. -/
structure FormattedError where
  pos : Position
  general_msg : List Char
  stream_name : Option (List Char)
  first_line_number : Nat
  text : List Char
  errors : List (List RAnnotation)
deriving Repr, DecidableEq

/-- `ErrorReporter::format_error`. -/
def ErrorReporter.format_error (r : ErrorReporter) (err : AnnotatedError) :
    Option FormattedError := do
  let bs := err.bounds
  let text ← r.code_snippet_for bs.1 bs.2
  let errors ← err.error_matrix
  pure { pos := err.span.start, general_msg := err.msg, stream_name := r.path,
         first_line_number := bs.1.line, text, errors }

/-- Decimal rendering of a number, as the `Display` of `usize`. -/
def natChars (n : Nat) : List Char := (Nat.repr n).toList

/-- The `{:>3}` format specifier: right-justify in a 3-char field. -/
def rightJust3 (s : List Char) : List Char :=
  List.replicate (3 - s.length) ' ' ++ s

/-- `FormattedError::write_general_message`. -/
def FormattedError.write_general_message (fe : FormattedError) : List Char :=
  "Error: ".toList ++ fe.general_msg ++ ['\n']

/-- `FormattedError::write_position` (1-indexed display). -/
def FormattedError.write_position (fe : FormattedError) : List Char :=
  match fe.stream_name with
  | some name =>
    " --> ".toList ++ name ++ [':'] ++ natChars (fe.pos.line + 1) ++ [':']
      ++ natChars (fe.pos.col + 1) ++ ['\n']
  | none =>
    " --> ".toList ++ natChars (fe.pos.line + 1) ++ [':'] ++ natChars (fe.pos.col + 1)
      ++ ['\n']

/-- `FormattedError::write_header`. -/
def FormattedError.write_header (fe : FormattedError) : List Char :=
  fe.write_general_message ++ fe.write_position

/-- `FormattedError::spacing`: the maximum annotation message byte length, 0
when there is none. -/
def FormattedError.spacing (fe : FormattedError) : Nat :=
  ((fe.errors.flatten.map fun a => strByteLen a.text).max?).getD 0

/-- `FormattedError::write_line`. -/
def FormattedError.write_line (content : List Char) (spacing number : Nat) : List Char :=
  [' '] ++ rightJust3 (natChars number) ++ " | ".toList ++ List.replicate spacing ' '
    ++ [' '] ++ content ++ ['\n']

/-- The marker loop of `FormattedError::write_underlines`; `cur` is
`current_col_number`. `none` models the panic when
`annotation.col_number - current_col_number` underflows. -/
def underlineMarks : List RAnnotation → Nat → Option (List Char)
  | [], _ => some []
  | a :: rest, cur =>
    if a.col_number < cur then none
    else
      let delta := a.col_number - cur
      let length := max 1 a.length
      let chr : Char := if length = 1 then '|' else '^'
      (underlineMarks rest (cur + delta + length)).map fun s =>
        List.replicate delta ' ' ++ List.replicate length chr ++ s

/-- `FormattedError::write_underlines`. -/
def FormattedError.write_underlines (errs : List RAnnotation) (spacing : Nat) :
    Option (List Char) :=
  (underlineMarks errs 0).map fun s =>
    "     | ".toList ++ List.replicate spacing ' ' ++ [' '] ++ s ++ ['\n']

/-- The bar loop of `FormattedError::write_error_line`; `cur` is
`current_col_number`. `none` models the panic when
`annotation.col_number - current_col_number - 1` underflows. -/
def connectorBars : List RAnnotation → Nat → Option (List Char)
  | [], _ => some []
  | b :: rest, cur =>
    if b.col_number < cur + 1 then none
    else
      let delta := b.col_number - cur - 1
      (connectorBars rest b.col_number).map fun s =>
        List.replicate delta ' ' ++ ['|'] ++ s

/-- `FormattedError::write_error_line`. `none` also models the underflow of
`spacing - annotation.text.len()`. The closing quote is `Char.ofNat 39`,
i.e. `'`. -/
def FormattedError.write_error_line (a : RAnnotation) (spacing : Nat)
    (others : List RAnnotation) : Option (List Char) :=
  if spacing < strByteLen a.text then none
  else
    let pipe_len := spacing - strByteLen a.text + a.col_number + 1
    (connectorBars others a.col_number).map fun s =>
      "     | ".toList ++ a.text ++ List.replicate pipe_len '-' ++ [Char.ofNat 39]
        ++ s ++ ['\n']

/-- The `for idx in 0..annotations.len()` loop of
`FormattedError::write_errors`: one connector line per annotation, each passed
the annotations to its right. -/
def errorLines (spacing : Nat) : List RAnnotation → Option (List Char)
  | [] => some []
  | a :: rest => do
    let l ← FormattedError.write_error_line a spacing rest
    let ls ← errorLines spacing rest
    pure (l ++ ls)

/-- `FormattedError::write_errors`. -/
def FormattedError.write_errors (annotations : List RAnnotation) (spacing : Nat) :
    Option (List Char) := do
  let u ← FormattedError.write_underlines annotations spacing
  let ls ← errorLines spacing annotations
  pure (u ++ ls)

/-- `str::split('\n')`. -/
def splitOnNl : List Char → List (List Char)
  | [] => [[]]
  | c :: cs =>
    let rest := splitOnNl cs
    if c = '\n' then [] :: rest
    else
      match rest with
      | [] => [[c]]
      | l :: ls => (c :: l) :: ls

/-- The per-line CRLF handling of `str::lines`: a trailing carriage return is
stripped. -/
def stripTrailingCr (l : List Char) : List Char :=
  if l.getLast? = some (Char.ofNat 13) then l.dropLast else l

/-- `str::lines`: split on newlines; a final trailing empty piece does not
count as a line. -/
def strLines (s : List Char) : List (List Char) :=
  let parts := splitOnNl s
  let parts := if parts.getLast? = some ([] : List Char) then parts.dropLast else parts
  parts.map stripTrailingCr

/-- The body loop of `Display for FormattedError`:
`text.lines().zip(errors.iter()).enumerate()`. -/
def renderBody (spacing first_line_number : Nat) :
    Nat → List (List Char) → List (List RAnnotation) → Option (List Char)
  | _, [], _ => some []
  | _, _ :: _, [] => some []
  | idx, line :: lines, errs :: errss => do
    let e ← FormattedError.write_errors errs spacing
    let rest ← renderBody spacing first_line_number (idx + 1) lines errss
    pure (FormattedError.write_line line spacing (idx + first_line_number + 1)
      ++ e ++ "     |\n".toList ++ rest)

/-- `Display for FormattedError`: header, a gutter line, then per snippet line
the source line, its underline row, its connector lines and a gutter line. -/
def FormattedError.render (fe : FormattedError) : Option (List Char) := do
  let spacing := fe.spacing
  let body ← renderBody spacing fe.first_line_number 0 (strLines fe.text) fe.errors
  pure (fe.write_header ++ "     |\n".toList ++ body)

/-! ## `lexer.rs`

The `token!` macro generates, for a declared list of terminal types, a token
type holding a kind (one terminal) and a span, plus a `Token::from_str` that
tries each terminal's `lex` in declaration order.  The macro expansion is
embedded generically: a terminal alternative is a function
`SpannedStr → Option (LexingResult K)` producing the token kind `K`, and
`Token.from_str` takes the ordered list of alternatives. -/

/-- `lexer::LexingResult`. -/
abbrev LexingResult (T : Type) :=
  Except (List AnnotatedError × Option SpannedStr) (T × Span × SpannedStr)

/-- The token type generated by the `token!` macro: a kind plus a span. -/
structure Token (K : Type) where
  kind : K
  span : Span
deriving Repr, DecidableEq

/-- The terminal alternation of the generated `Token::from_str`: try each
`lex` in declaration order, first non-`None` answer wins. -/
def tryLexers (lexers : List (SpannedStr → Option (LexingResult K))) (input : SpannedStr) :
    Option (LexingResult K) :=
  match lexers with
  | [] => none
  | l :: rest =>
    match l input with
    | some r => some r
    | none => tryLexers rest input

/-- The index computed by the `take_while` call in the fallback of the
generated `Token::from_str`: the `first` flag of the stateful closure is
threaded explicitly, so the predicate holds for the first char only. -/
def firstCharSplitIdx : List Char → Bool → Nat → Option Nat
  | [], _, _ => none
  | c :: cs, first, acc =>
    if first then firstCharSplitIdx cs false (acc + c.utf8Size) else some acc

/-- The generated `Token::from_str`: terminal alternation, then the fatal
"unknown start of token" fallback on the first character. `none` models a
panic inside `split_at` (it never actually occurs). -/
def Token.from_str (lexers : List (SpannedStr → Option (LexingResult K)))
    (input : SpannedStr) :
    Option (Except (List AnnotatedError × Option SpannedStr) (Token K × SpannedStr)) :=
  match tryLexers lexers input with
  | some (.ok (term, span, tail)) => some (.ok (⟨term, span⟩, tail))
  | some (.error e) => some (.error e)
  | none =>
    let idx := (firstCharSplitIdx input.content true 0).getD (strByteLen input.content)
    (input.split_at idx).map fun chr_tail =>
      let chr := chr_tail.1
      let report := AnnotatedError.with_annotation
        (AnnotatedError.new chr.span
          ("Unknown start of token: `".toList ++ chr.content ++ "`".toList))
        chr.span "Unknown start of token".toList
      .error ([report], none)

/-- `lexer::Lexer`, a wrapper around the produced token list. -/
structure Lexer (Tok : Type) where
  toks : List Tok
deriving Repr, DecidableEq

/-- The `while` loop of `Lexer::from_spanned_str`, with explicit fuel: `none`
models a run that does not finish within `fuel` iterations (the Rust loop has
no termination guarantee of its own) or a panic inside `from_str`. -/
def Lexer.loop
    (fromStr : SpannedStr →
      Option (Except (List AnnotatedError × Option SpannedStr) (Tok × SpannedStr))) :
    Nat → SpannedStr → List Tok → List AnnotatedError →
    Option (Except (List AnnotatedError) (Lexer Tok))
  | 0, _, _, _ => none
  | fuel + 1, input, toks, errs =>
    if input.content.isEmpty then
      some (if errs.isEmpty then .ok ⟨toks⟩ else .error errs)
    else
      match fromStr input with
      | some (.ok (tok, tail)) => Lexer.loop fromStr fuel tail (toks ++ [tok]) errs
      | some (.error (es, some tail)) => Lexer.loop fromStr fuel tail toks (errs ++ es)
      | some (.error (es, none)) => some (.error (errs ++ es))
      | none => none

/-- `Lexer::from_spanned_str`. -/
def Lexer.from_spanned_str
    (fromStr : SpannedStr →
      Option (Except (List AnnotatedError × Option SpannedStr) (Tok × SpannedStr)))
    (fuel : Nat) (input : SpannedStr) :
    Option (Except (List AnnotatedError) (Lexer Tok)) :=
  Lexer.loop fromStr fuel input [] []

/-! The Morse terminals of the `lexer.rs` test module: `-` and `.` are
recognised, `_` is recognised-but-malformed by `Dash` with a resumption
point, anything else is unknown. -/

/-- The test terminal `Dash`. -/
inductive Dash | mk
deriving Repr, DecidableEq

/-- The test terminal `Dot`. -/
inductive Dot | mk
deriving Repr, DecidableEq

/-- `<Dash as Terminal>::lex` from the `lexer.rs` tests. -/
def Dash.lex (i : SpannedStr) : Option (LexingResult Dash) :=
  match i.content with
  | c :: _ =>
    if c = '-' then
      (i.split_at 1).map fun mt => .ok (Dash.mk, mt.1.span, mt.2)
    else if c = '_' then
      (i.split_at 1).map fun mt =>
        .error ([AnnotatedError.new mt.1.span "Expected `-`, found `_`".toList], some mt.2)
    else none
  | [] => none

/-- `<Dot as Terminal>::lex` from the `lexer.rs` tests. -/
def Dot.lex (i : SpannedStr) : Option (LexingResult Dot) :=
  match i.content with
  | c :: _ =>
    if c = '.' then (i.split_at 1).map fun mt => .ok (Dot.mk, mt.1.span, mt.2) else none
  | [] => none

/-- The kind type generated by `token! { MorseToken = Dash | Dot }`. -/
inductive MorseTokenKind
  | Dash : Dash → MorseTokenKind
  | Dot : Dot → MorseTokenKind
deriving Repr, DecidableEq

/-- The ordered terminal alternatives of `MorseToken`, in declaration order
(`Dash` first, as in the test). -/
def morseLexers : List (SpannedStr → Option (LexingResult MorseTokenKind)) :=
  [fun i => (Dash.lex i).map (Except.map fun r => (MorseTokenKind.Dash r.1, r.2.1, r.2.2)),
   fun i => (Dot.lex i).map (Except.map fun r => (MorseTokenKind.Dot r.1, r.2.1, r.2.2))]

/-- `<MorseToken as Token>::from_str`. -/
def MorseToken.from_str (input : SpannedStr) :
    Option (Except (List AnnotatedError × Option SpannedStr)
      (Token MorseTokenKind × SpannedStr)) :=
  Token.from_str morseLexers input

/-! ## Basic lemmas about byte lengths and splitting -/

theorem strByteLen_nil : strByteLen [] = 0 := rfl

theorem strByteLen_cons (c : Char) (s : List Char) :
    strByteLen (c :: s) = c.utf8Size + strByteLen s := by
  simp [strByteLen]

theorem strByteLen_append (s t : List Char) :
    strByteLen (s ++ t) = strByteLen s + strByteLen t := by
  simp [strByteLen]

/-- Splitting at the byte length of a prefix recovers exactly that prefix and
the corresponding suffix. -/
theorem strSplitAt_boundary (l r : List Char) :
    strSplitAt (l ++ r) (strByteLen l) = some (l, r) := by
  induction l with
  | nil =>
    rw [strSplitAt.eq_def]
    simp [strByteLen_nil]
  | cons c cs ih =>
    have hpos : 0 < c.utf8Size := Char.utf8Size_pos c
    rw [strSplitAt.eq_def, strByteLen_cons]
    have hne : ¬ (c.utf8Size + strByteLen cs = 0) := by omega
    have hle : c.utf8Size ≤ c.utf8Size + strByteLen cs := by omega
    simp only [List.cons_append, if_neg hne, if_pos hle]
    have hsub : c.utf8Size + strByteLen cs - c.utf8Size = strByteLen cs := by omega
    rw [hsub, ih]
    rfl

/-! ## C9: `Position::advance_with` -/

/-- **C9.** `Position::advance_with` is a pure total function processing its
input character by character: the empty string leaves the position unchanged,
a leading `\n` increments the line and resets the column to 0 while any other
leading character increments the column by one (each character also adding its
UTF-8 size to the offset), the total offset increase is exactly the UTF-8 byte
length of the string, and advancing across a concatenation equals advancing
across the two parts in sequence. -/
theorem Position.advance_with_spec :
    (∀ p : Position, p.advance_with [] = p) ∧
    (∀ (p : Position) (c : Char) (s : List Char),
      p.advance_with (c :: s) =
        Position.advance_with
          (if c = '\n' then ⟨p.line + 1, 0, p.offset + c.utf8Size⟩
           else ⟨p.line, p.col + 1, p.offset + c.utf8Size⟩) s) ∧
    (∀ (p : Position) (s : List Char),
      (p.advance_with s).offset = p.offset + strByteLen s) ∧
    (∀ (p : Position) (s t : List Char),
      p.advance_with (s ++ t) = (p.advance_with s).advance_with t) := by
  refine ⟨?_, ?_, ?_, ?_⟩
  · intro p
    simp [Position.advance_with, strByteLen]
  · intro p c s
    by_cases h : c = '\n' <;>
      simp [Position.advance_with, h, strByteLen_cons, Nat.add_assoc]
  · intro p s
    rfl
  · intro p s t
    simp [Position.advance_with, List.foldl_append, strByteLen_append, Nat.add_assoc]

/-! ## C2: `SpannedStr::split_at` -/

/-- **C2.** For every `SpannedStr` and every byte index that lies on a UTF-8
character boundary within the content (i.e. is the byte length of some prefix
of the content), `split_at` succeeds, the two contents concatenate to the
original content, the left span starts where the original span starts, the
right span ends where the original span ends, and the two spans are
contiguous: the left end is exactly the right start. -/
theorem SpannedStr.split_at_spec (s : SpannedStr) (n : Nat)
    (h : ∃ l r, s.content = l ++ r ∧ n = strByteLen l) :
    ∃ left right, s.split_at n = some (left, right) ∧
      left.content ++ right.content = s.content ∧
      left.span.start = s.span.start ∧
      right.span.endPos = s.span.endPos ∧
      left.span.endPos = right.span.start := by
  obtain ⟨l, r, hc, hn⟩ := h
  refine ⟨⟨⟨s.span.start, s.span.start.advance_with l⟩, l⟩,
          ⟨⟨s.span.start.advance_with l, s.span.endPos⟩, r⟩, ?_, ?_, rfl, rfl, rfl⟩
  · rw [SpannedStr.split_at, hc, hn, strSplitAt_boundary]
    rfl
  · rw [hc]

/-- Closed instance of C2 at `"helloworld"` split at byte 5 (the doc-test of
`SpannedStr::split_at`). -/
theorem SpannedStr.split_at_spec_witness :
    (∃ l r, (SpannedStr.input_file "helloworld".toList).content = l ++ r ∧
        5 = strByteLen l) ∧
    ∃ left right,
      (SpannedStr.input_file "helloworld".toList).split_at 5 = some (left, right) ∧
      left.content ++ right.content = (SpannedStr.input_file "helloworld".toList).content ∧
      left.span.start = (SpannedStr.input_file "helloworld".toList).span.start ∧
      right.span.endPos = (SpannedStr.input_file "helloworld".toList).span.endPos ∧
      left.span.endPos = right.span.start :=
  ⟨⟨"hello".toList, "world".toList, rfl, by decide⟩,
   SpannedStr.split_at_spec _ 5 ⟨"hello".toList, "world".toList, rfl, by decide⟩⟩

/-! ## C8: `SpannedStr::take_while` -/

theorem findSplitIdx_spec (f : Char → Bool) (content : List Char) (acc : Nat) :
    (findSplitIdx f content acc).getD (acc + strByteLen content) =
      acc + strByteLen (content.takeWhile f) := by
  induction content generalizing acc with
  | nil => simp [findSplitIdx, strByteLen_nil]
  | cons c cs ih =>
    by_cases h : f c
    · rw [findSplitIdx, if_neg (by simp [h]), List.takeWhile_cons, if_pos h,
        strByteLen_cons, strByteLen_cons, ← Nat.add_assoc, ← Nat.add_assoc, ih]
    · rw [findSplitIdx, if_pos (by simp [h]), List.takeWhile_cons, if_neg (by simp [h])]
      simp [strByteLen_nil]

theorem prefix_all_sat_prefix_takeWhile (f : Char → Bool) :
    ∀ (l₁ l : List Char), l₁ <+: l → (∀ c ∈ l₁, f c) → l₁ <+: l.takeWhile f := by
  intro l₁
  induction l₁ with
  | nil => intro l _ _; exact List.nil_prefix
  | cons a t ih =>
    intro l hpre hall
    match l, hpre with
    | b :: l', hp =>
      rw [List.cons_prefix_cons] at hp
      obtain ⟨rfl, hp'⟩ := hp
      have ha : f a := hall a (List.mem_cons_self a t)
      rw [List.takeWhile_cons, if_pos ha, List.cons_prefix_cons]
      exact ⟨rfl, ih l' hp' fun c hc => hall c (List.mem_cons_of_mem a hc)⟩

/-- **C8.** For every predicate `P` and every `SpannedStr`, `take_while`
returns the longest prefix all of whose characters satisfy `P` together with
the remainder: every char of the prefix satisfies `P`, the remainder is empty
or starts with a char failing `P`, any prefix of the content all of whose
chars satisfy `P` is no longer than the returned prefix, and the result is
exactly `split_at` applied at the byte index of the first non-matching
character (the full byte length when every char matches). -/
theorem SpannedStr.take_while_spec (s : SpannedStr) (P : Char → Bool) :
    ∃ pre rest, s.take_while P = some (pre, rest) ∧
      pre.content = s.content.takeWhile P ∧
      rest.content = s.content.dropWhile P ∧
      (∀ c ∈ pre.content, P c) ∧
      (rest.content = [] ∨ ∃ c cs, rest.content = c :: cs ∧ ¬ P c) ∧
      (∀ l, l <+: s.content → (∀ c ∈ l, P c) → l.length ≤ pre.content.length) ∧
      s.split_at (strByteLen (s.content.takeWhile P)) = some (pre, rest) := by
  have hidx : (findSplitIdx P s.content 0).getD (strByteLen s.content) =
      strByteLen (s.content.takeWhile P) := by
    have := findSplitIdx_spec P s.content 0
    simpa using this
  have hsplit : strSplitAt s.content (strByteLen (s.content.takeWhile P)) =
      some (s.content.takeWhile P, s.content.dropWhile P) := by
    have h1 := strSplitAt_boundary (s.content.takeWhile P) (s.content.dropWhile P)
    rwa [List.takeWhile_append_dropWhile] at h1
  refine ⟨⟨⟨s.span.start, s.span.start.advance_with (s.content.takeWhile P)⟩,
            s.content.takeWhile P⟩,
          ⟨⟨s.span.start.advance_with (s.content.takeWhile P), s.span.endPos⟩,
            s.content.dropWhile P⟩, ?_, rfl, rfl, ?_, ?_, ?_, ?_⟩
  · rw [SpannedStr.take_while, hidx, SpannedStr.split_at, hsplit]
    rfl
  · intro c hc
    exact List.mem_takeWhile_imp hc
  · cases hd : s.content.dropWhile P with
    | nil => exact Or.inl rfl
    | cons c cs =>
      refine Or.inr ⟨c, cs, rfl, ?_⟩
      have := List.head?_dropWhile_not P s.content
      rw [hd] at this
      simp only [List.head?_cons] at this
      simp [this]
  · intro l hl hall
    exact (prefix_all_sat_prefix_takeWhile P l s.content hl hall).length_le
  · rw [SpannedStr.split_at, hsplit]
    rfl

/-- Closed instance of C8 at the doc-test input `"42 101"` with predicate
`Char.isDigit`. -/
theorem SpannedStr.take_while_spec_witness :
    ∃ pre rest,
      (SpannedStr.input_file "42 101".toList).take_while Char.isDigit = some (pre, rest) ∧
      pre.content = "42 101".toList.takeWhile Char.isDigit ∧
      rest.content = "42 101".toList.dropWhile Char.isDigit ∧
      (∀ c ∈ pre.content, Char.isDigit c) ∧
      (rest.content = [] ∨ ∃ c cs, rest.content = c :: cs ∧ ¬ Char.isDigit c) ∧
      (∀ l, l <+: (SpannedStr.input_file "42 101".toList).content →
        (∀ c ∈ l, Char.isDigit c) → l.length ≤ pre.content.length) ∧
      (SpannedStr.input_file "42 101".toList).split_at
          (strByteLen ("42 101".toList.takeWhile Char.isDigit)) = some (pre, rest) :=
  SpannedStr.take_while_spec (SpannedStr.input_file "42 101".toList) Char.isDigit

/-! ## C1: the `Lexer::from_spanned_str` loop -/

/-- **C1.** The lexing loop: while input is non-empty, a successful
`from_str` appends the token and continues on the tail; a recoverable error
(paired with `some` tail) appends all the errors and continues on the tail; a
fatal error (paired with `none`) appends the errors and stops immediately with
`Err`.  On exhausted input the result is `Ok` with the token list exactly when
the accumulator is empty and `Err` with the accumulated errors otherwise.  In
particular empty input yields `Ok []`, and with the Morse terminals (`.` and
`-` recognised, `_` recognised-but-malformed with a resumption point) the
input `"__"` yields `Err` carrying exactly 2 accumulated errors. -/
theorem Lexer.from_spanned_str_spec :
    (∀ (Tok : Type)
      (fromStr : SpannedStr →
        Option (Except (List AnnotatedError × Option SpannedStr) (Tok × SpannedStr)))
      (fuel : Nat) (input : SpannedStr) (toks : List Tok) (errs : List AnnotatedError)
      (tok : Tok) (tail : SpannedStr),
      input.content ≠ [] → fromStr input = some (.ok (tok, tail)) →
      Lexer.loop fromStr (fuel + 1) input toks errs =
        Lexer.loop fromStr fuel tail (toks ++ [tok]) errs) ∧
    (∀ (Tok : Type)
      (fromStr : SpannedStr →
        Option (Except (List AnnotatedError × Option SpannedStr) (Tok × SpannedStr)))
      (fuel : Nat) (input : SpannedStr) (toks : List Tok) (errs : List AnnotatedError)
      (es : List AnnotatedError) (tail : SpannedStr),
      input.content ≠ [] → fromStr input = some (.error (es, some tail)) →
      Lexer.loop fromStr (fuel + 1) input toks errs =
        Lexer.loop fromStr fuel tail toks (errs ++ es)) ∧
    (∀ (Tok : Type)
      (fromStr : SpannedStr →
        Option (Except (List AnnotatedError × Option SpannedStr) (Tok × SpannedStr)))
      (fuel : Nat) (input : SpannedStr) (toks : List Tok) (errs : List AnnotatedError)
      (es : List AnnotatedError),
      input.content ≠ [] → fromStr input = some (.error (es, none)) →
      Lexer.loop fromStr (fuel + 1) input toks errs = some (.error (errs ++ es))) ∧
    (∀ (Tok : Type)
      (fromStr : SpannedStr →
        Option (Except (List AnnotatedError × Option SpannedStr) (Tok × SpannedStr)))
      (fuel : Nat) (input : SpannedStr) (toks : List Tok) (errs : List AnnotatedError),
      input.content = [] →
      Lexer.loop fromStr (fuel + 1) input toks errs =
        some (if errs = [] then .ok ⟨toks⟩ else .error errs)) ∧
    (Lexer.from_spanned_str MorseToken.from_str 1 (SpannedStr.input_file "".toList) =
      some (.ok ⟨[]⟩)) ∧
    (∃ e₁ e₂,
      Lexer.from_spanned_str MorseToken.from_str 3 (SpannedStr.input_file "__".toList) =
        some (.error [e₁, e₂])) := by
  refine ⟨?_, ?_, ?_, ?_, rfl, ?_⟩
  · intro Tok fromStr fuel input toks errs tok tail h1 h2
    rw [Lexer.loop, if_neg (by simp [h1]), h2]
  · intro Tok fromStr fuel input toks errs es tail h1 h2
    rw [Lexer.loop, if_neg (by simp [h1]), h2]
  · intro Tok fromStr fuel input toks errs es h1 h2
    rw [Lexer.loop, if_neg (by simp [h1]), h2]
  · intro Tok fromStr fuel input toks errs h1
    rw [Lexer.loop, if_pos (by simp [h1])]
    by_cases h : errs = [] <;> simp [h]
  · exact ⟨_, _, rfl⟩

/-- Closed instance of C1: one successful step of the Morse lexer on `"._"`,
one recoverable step on `"_"`, the final empty-input step, and the fatal stop
on `"|"`. -/
theorem Lexer.from_spanned_str_spec_witness :
    ((SpannedStr.input_file "._".toList).content ≠ [] ∧
      Lexer.loop MorseToken.from_str 2 (SpannedStr.input_file "._".toList) [] [] =
        Lexer.loop MorseToken.from_str 1
          ⟨⟨⟨0, 1, 1⟩, ⟨0, 2, 2⟩⟩, ['_']⟩
          [⟨MorseTokenKind.Dot Dot.mk, ⟨⟨0, 0, 0⟩, ⟨0, 1, 1⟩⟩⟩] []) ∧
    Lexer.loop MorseToken.from_str 1 (SpannedStr.input_file "|".toList) [] [] =
      some (.error [AnnotatedError.with_annotation
        (AnnotatedError.new ⟨⟨0, 0, 0⟩, ⟨0, 1, 1⟩⟩
          "Unknown start of token: `|`".toList) ⟨⟨0, 0, 0⟩, ⟨0, 1, 1⟩⟩
        "Unknown start of token".toList]) := by
  constructor
  · constructor
    · decide
    · exact Lexer.from_spanned_str_spec.1 _ MorseToken.from_str 1
        (SpannedStr.input_file "._".toList) [] [] _ _ (by decide) rfl
  · exact Lexer.from_spanned_str_spec.2.2.1 _ MorseToken.from_str 0
      (SpannedStr.input_file "|".toList) [] [] _ (by decide) rfl

/-! ## C3: the `token!`-generated `Token::from_str` fallback -/

theorem tryLexers_eq_none (lexers : List (SpannedStr → Option (LexingResult K)))
    (input : SpannedStr) (h : ∀ l ∈ lexers, l input = none) :
    tryLexers lexers input = none := by
  induction lexers with
  | nil => rfl
  | cons l rest ih =>
    rw [tryLexers, h l (List.mem_cons_self l rest)]
    exact ih fun l' hl' => h l' (List.mem_cons_of_mem l hl')

theorem firstCharSplitIdx_cons (c : Char) (cs : List Char) :
    (firstCharSplitIdx (c :: cs) true 0).getD (strByteLen (c :: cs)) = strByteLen [c] := by
  rw [firstCharSplitIdx, if_pos rfl]
  cases cs with
  | nil => simp [firstCharSplitIdx, strByteLen_cons, strByteLen_nil]
  | cons c₂ cs₂ => simp [firstCharSplitIdx, strByteLen_cons, strByteLen_nil]

/-- **C3.** When the input is non-empty and every registered terminal's `lex`
returns `None` (terminals are tried in declaration order, first non-`None`
answer winning), the generated `Token::from_str` fails fatally: it returns
`Err` with exactly one `AnnotatedError` whose span covers exactly the first
character of the input, whose annotation text is "Unknown start of token",
and whose resumption tail is `None`.  In particular the Morse lexer on `"||"`
stops immediately with exactly 1 error. -/
theorem Token.from_str_unknown_spec :
    (∀ (K : Type) (lexers : List (SpannedStr → Option (LexingResult K)))
      (input : SpannedStr) (c : Char) (cs : List Char),
      input.content = c :: cs →
      (∀ l ∈ lexers, l input = none) →
      Token.from_str lexers input = some (.error
        ([AnnotatedError.with_annotation
          (AnnotatedError.new ⟨input.span.start, input.span.start.advance_with [c]⟩
            ("Unknown start of token: `".toList ++ [c] ++ "`".toList))
          ⟨input.span.start, input.span.start.advance_with [c]⟩
          "Unknown start of token".toList], none))) ∧
    (∃ es, Lexer.from_spanned_str MorseToken.from_str 5 (SpannedStr.input_file "||".toList) =
      some (.error es) ∧ es.length = 1) := by
  constructor
  · intro K lexers input c cs hcontent hall
    have hfs : Token.from_str lexers input =
        (input.split_at ((firstCharSplitIdx input.content true 0).getD
          (strByteLen input.content))).map fun chr_tail =>
          Except.error ([AnnotatedError.with_annotation
            (AnnotatedError.new chr_tail.1.span
              ("Unknown start of token: `".toList ++ chr_tail.1.content ++ "`".toList))
            chr_tail.1.span "Unknown start of token".toList], none) := by
      rw [Token.from_str, tryLexers_eq_none lexers input hall]
    have hsplit : input.split_at (strByteLen [c]) =
        some (⟨⟨input.span.start, input.span.start.advance_with [c]⟩, [c]⟩,
              ⟨⟨input.span.start.advance_with [c], input.span.endPos⟩, cs⟩) := by
      rw [SpannedStr.split_at, hcontent]
      rw [show c :: cs = [c] ++ cs from rfl, strSplitAt_boundary]
      rfl
    rw [hfs, hcontent, firstCharSplitIdx_cons, hsplit]
    rfl
  · exact ⟨_, rfl, rfl⟩

/-- Closed instance of C3: the Morse terminals on `"||"` — both terminal
lexers return `None`, and `from_str` produces the single fatal
"unknown start of token" error on the first character. -/
theorem Token.from_str_unknown_spec_witness :
    ((SpannedStr.input_file "||".toList).content = '|' :: ['|'] ∧
      (∀ l ∈ morseLexers, l (SpannedStr.input_file "||".toList) = none)) ∧
    Token.from_str morseLexers (SpannedStr.input_file "||".toList) = some (.error
      ([AnnotatedError.with_annotation
        (AnnotatedError.new ⟨⟨0, 0, 0⟩, Position.advance_with ⟨0, 0, 0⟩ ['|']⟩
          ("Unknown start of token: `".toList ++ ['|'] ++ "`".toList))
        ⟨⟨0, 0, 0⟩, Position.advance_with ⟨0, 0, 0⟩ ['|']⟩
        "Unknown start of token".toList], none)) := by
  have hall : ∀ l ∈ morseLexers, l (SpannedStr.input_file "||".toList) = none := by
    intro l hl
    unfold morseLexers at hl
    fin_cases hl <;> rfl
  exact ⟨⟨rfl, hall⟩,
    Token.from_str_unknown_spec.1 MorseTokenKind morseLexers
      (SpannedStr.input_file "||".toList) '|' ['|'] rfl hall⟩

/-! ## C5: the underline row -/

/-- The underline row as the spec describes it: walk the annotations left to
right, emit blank padding for the column gap, then `^` repeated `length` for
an annotation longer than one column and a single `|` for a zero- or
one-column annotation. -/
def underlineRowSpec : List RAnnotation → Nat → List Char
  | [], _ => []
  | a :: rest, cur =>
    List.replicate (a.col_number - cur) ' ' ++
      (if a.length ≤ 1 then ['|'] else List.replicate a.length '^') ++
      underlineRowSpec rest (a.col_number + max 1 a.length)

/-- The disjointness condition under which the underline loop's column
subtraction cannot underflow: each annotation starts at or after the end of
the previous annotation's marker. -/
def UnderlineDisjoint (anns : List RAnnotation) : Prop :=
  List.Chain' (fun x y => x.col_number + max 1 x.length ≤ y.col_number) anns

theorem underlineMarks_eq_spec :
    ∀ (anns : List RAnnotation) (cur : Nat), UnderlineDisjoint anns →
      (∀ a ∈ anns.head?, cur ≤ a.col_number) →
      underlineMarks anns cur = some (underlineRowSpec anns cur) := by
  intro anns
  induction anns with
  | nil => intro cur _ _; rfl
  | cons a rest ih =>
    intro cur hchain hcur
    have hac : cur ≤ a.col_number := hcur a rfl
    rw [UnderlineDisjoint, List.chain'_cons'] at hchain
    obtain ⟨hhead, htail⟩ := hchain
    have hmark : List.replicate (max 1 a.length)
        (if max 1 a.length = 1 then '|' else '^') =
        (if a.length ≤ 1 then ['|'] else List.replicate a.length '^') := by
      by_cases h : a.length ≤ 1
      · have h1 : max 1 a.length = 1 := by omega
        simp [h1, h]
      · have h1 : max 1 a.length = a.length := by omega
        rw [h1, if_neg (by omega), if_neg h]
    have hnext : cur + (a.col_number - cur) + max 1 a.length =
        a.col_number + max 1 a.length := by omega
    simp only [underlineMarks]
    rw [if_neg (by omega : ¬ a.col_number < cur), hnext,
      ih (a.col_number + max 1 a.length) htail hhead, underlineRowSpec, hmark]
    rfl

/-- **C5.** Under the column-disjointness the annotation matrix is meant to
provide, the underline row walks the annotations left to right, emitting
blank padding equal to the column gap between consecutive annotations, `^`
repeated `length` times under an annotation of span length greater than 1,
and a single `|` connector bar under an annotation of length 1 (or 0). -/
theorem FormattedError.write_underlines_spec (spacing : Nat)
    (anns : List RAnnotation) (h : UnderlineDisjoint anns) :
    FormattedError.write_underlines anns spacing =
      some ("     | ".toList ++ List.replicate spacing ' ' ++ [' '] ++
        underlineRowSpec anns 0 ++ ['\n']) := by
  rw [FormattedError.write_underlines,
    underlineMarks_eq_spec anns 0 h (fun a _ => Nat.zero_le _)]
  rfl

/-- Closed instance of C5 at the annotation row of the `reporting_simple`
test: `hello` (length 5) and `world` (length 5) get `^^^^^`, the comma
(length 1) gets `|`. -/
theorem FormattedError.write_underlines_spec_witness :
    UnderlineDisjoint [⟨0, 5, "Hi sweetie".toList⟩, ⟨5, 1, "Such cute, very comma".toList⟩,
        ⟨7, 5, "I am not a world!".toList⟩] ∧
    FormattedError.write_underlines
        [⟨0, 5, "Hi sweetie".toList⟩, ⟨5, 1, "Such cute, very comma".toList⟩,
          ⟨7, 5, "I am not a world!".toList⟩] 21 =
      some ("     | ".toList ++ List.replicate 21 ' ' ++ [' '] ++
        underlineRowSpec [⟨0, 5, "Hi sweetie".toList⟩, ⟨5, 1, "Such cute, very comma".toList⟩,
          ⟨7, 5, "I am not a world!".toList⟩] 0 ++ ['\n']) :=
  have hd : UnderlineDisjoint [⟨0, 5, "Hi sweetie".toList⟩,
      ⟨5, 1, "Such cute, very comma".toList⟩, ⟨7, 5, "I am not a world!".toList⟩] := by
    simp [UnderlineDisjoint, List.chain'_cons]
  ⟨hd, FormattedError.write_underlines_spec 21 _ hd⟩

/-! ## C4: the connector lines -/

/-- The trailing bars of one connector line, as the spec describes them: for
every annotation to the right of the one being closed, a bar at its column,
placed via the running gap since the previous marker. -/
def connectorBarsSpec : List RAnnotation → Nat → List Char
  | [], _ => []
  | b :: rest, cur =>
    List.replicate (b.col_number - cur - 1) ' ' ++ ['|'] ++
      connectorBarsSpec rest b.col_number

/-- One connector line, as the spec describes it: the annotation's message,
a run of `-` of length `spacing - len(message) + column + 1`, a closing
quote, then one bar per annotation to the right. -/
def connectorLineSpec (a : RAnnotation) (spacing : Nat) (others : List RAnnotation) :
    List Char :=
  "     | ".toList ++ a.text ++
    List.replicate (spacing - strByteLen a.text + a.col_number + 1) '-' ++
    [Char.ofNat 39] ++ connectorBarsSpec others a.col_number ++ ['\n']

/-- The connector lines of one annotation row, one per annotation in
left-to-right order, each receiving the annotations to its right. -/
def connectorLinesSpec (spacing : Nat) : List RAnnotation → List (List Char)
  | [] => []
  | a :: rest => connectorLineSpec a spacing rest :: connectorLinesSpec spacing rest

theorem connectorBars_eq_spec :
    ∀ (others : List RAnnotation) (cur : Nat),
      List.Chain' (fun x y => x.col_number < y.col_number) others →
      (∀ b ∈ others.head?, cur < b.col_number) →
      connectorBars others cur = some (connectorBarsSpec others cur) := by
  intro others
  induction others with
  | nil => intro cur _ _; rfl
  | cons b rest ih =>
    intro cur hchain hcur
    have hbc : cur < b.col_number := hcur b rfl
    rw [List.chain'_cons'] at hchain
    obtain ⟨hhead, htail⟩ := hchain
    rw [connectorBars, if_neg (by omega), ih b.col_number htail hhead]
    rfl

theorem write_error_line_eq_spec (a : RAnnotation) (spacing : Nat)
    (others : List RAnnotation) (hlen : strByteLen a.text ≤ spacing)
    (hchain : List.Chain' (fun x y => x.col_number < y.col_number) (a :: others)) :
    FormattedError.write_error_line a spacing others =
      some (connectorLineSpec a spacing others) := by
  rw [List.chain'_cons'] at hchain
  obtain ⟨hhead, htail⟩ := hchain
  rw [FormattedError.write_error_line, if_neg (by omega),
    connectorBars_eq_spec others a.col_number htail hhead]
  rfl

theorem errorLines_eq_connectorLinesSpec (spacing : Nat) :
    ∀ (anns : List RAnnotation), (∀ x ∈ anns, strByteLen x.text ≤ spacing) →
      List.Chain' (fun x y => x.col_number < y.col_number) anns →
      errorLines spacing anns = some (connectorLinesSpec spacing anns).flatten := by
  intro anns
  induction anns with
  | nil => intro _ _; rfl
  | cons a rest ih =>
    intro hlen hchain
    have ih1 := ih (fun x hx => hlen x (List.mem_cons_of_mem a hx))
      (List.chain'_cons'.mp hchain).2
    have hline := write_error_line_eq_spec a spacing rest
      (hlen a (List.mem_cons_self a rest)) hchain
    rw [errorLines, hline, ih1]
    rfl

theorem connectorLinesSpec_length (spacing : Nat) :
    ∀ anns : List RAnnotation, (connectorLinesSpec spacing anns).length = anns.length := by
  intro anns
  induction anns with
  | nil => rfl
  | cons a rest ih => rw [connectorLinesSpec, List.length_cons, List.length_cons, ih]

theorem connectorLinesSpec_get? (spacing : Nat) :
    ∀ (anns : List RAnnotation) (i : Nat) (a : RAnnotation), anns.get? i = some a →
      (connectorLinesSpec spacing anns).get? i =
        some (connectorLineSpec a spacing (anns.drop (i + 1))) := by
  intro anns
  induction anns with
  | nil => intro i a h; simp at h
  | cons a rest ih =>
    intro i b hb
    match i, hb with
    | 0, hb =>
      rw [List.get?_cons_zero] at hb
      cases hb
      rfl
    | (i + 1), hb =>
      rw [List.get?_cons_succ] at hb
      rw [connectorLinesSpec, List.get?_cons_succ, List.drop_succ_cons]
      exact ih i b hb

/-- **C4.** For an annotation row whose annotations are in strictly
increasing column order, the connector-line loop emits exactly one connector
line per annotation, in left-to-right column order; connector line `i` is the
message of annotation `i`, a run of `-` of length
`spacing - len(message) + column + 1`, a terminating quote, and one vertical
bar per annotation to the right of annotation `i`, each placed via the
running column gap since the previous marker. -/
theorem errorLines_spec (spacing : Nat) (anns : List RAnnotation)
    (hlen : ∀ x ∈ anns, strByteLen x.text ≤ spacing)
    (hchain : List.Chain' (fun x y => x.col_number < y.col_number) anns) :
    errorLines spacing anns = some (connectorLinesSpec spacing anns).flatten ∧
    (connectorLinesSpec spacing anns).length = anns.length ∧
    (∀ (i : Nat) (a : RAnnotation), anns.get? i = some a →
      (connectorLinesSpec spacing anns).get? i =
        some (connectorLineSpec a spacing (anns.drop (i + 1)))) :=
  ⟨errorLines_eq_connectorLinesSpec spacing anns hlen hchain,
   connectorLinesSpec_length spacing anns,
   connectorLinesSpec_get? spacing anns⟩

/-- Closed instance of C4 at the annotation row of the `reporting_simple`
test. -/
theorem errorLines_spec_witness :
    ((∀ x ∈ ([⟨0, 5, "Hi sweetie".toList⟩, ⟨5, 1, "Such cute, very comma".toList⟩,
        ⟨7, 5, "I am not a world!".toList⟩] : List RAnnotation),
        strByteLen x.text ≤ 21) ∧
      List.Chain' (fun x y : RAnnotation => x.col_number < y.col_number)
        ([⟨0, 5, "Hi sweetie".toList⟩, ⟨5, 1, "Such cute, very comma".toList⟩,
          ⟨7, 5, "I am not a world!".toList⟩] : List RAnnotation)) ∧
    errorLines 21 [⟨0, 5, "Hi sweetie".toList⟩, ⟨5, 1, "Such cute, very comma".toList⟩,
        ⟨7, 5, "I am not a world!".toList⟩] =
      some (connectorLinesSpec 21
        [⟨0, 5, "Hi sweetie".toList⟩, ⟨5, 1, "Such cute, very comma".toList⟩,
          ⟨7, 5, "I am not a world!".toList⟩]).flatten :=
  have hlen : ∀ x ∈ ([⟨0, 5, "Hi sweetie".toList⟩, ⟨5, 1, "Such cute, very comma".toList⟩,
      ⟨7, 5, "I am not a world!".toList⟩] : List RAnnotation),
      strByteLen x.text ≤ 21 := by decide
  have hch : List.Chain' (fun x y : RAnnotation => x.col_number < y.col_number)
      ([⟨0, 5, "Hi sweetie".toList⟩, ⟨5, 1, "Such cute, very comma".toList⟩,
        ⟨7, 5, "I am not a world!".toList⟩] : List RAnnotation) := by
    simp [List.chain'_cons]
  ⟨⟨hlen, hch⟩, (errorLines_spec 21 _ hlen hch).1⟩

/-! ## C10: rendering totality needs column-disjoint annotations -/

theorem le_max?_getD (l : List Nat) (a : Nat) (h : a ∈ l) : a ≤ l.max?.getD 0 := by
  induction l with
  | nil => cases h
  | cons b t ih =>
    rw [List.max?_cons]
    rcases List.mem_cons.mp h with rfl | h2
    · cases ht : t.max? <;> simp [ht, Option.elim]
    · have h3 := ih h2
      cases ht : t.max? with
      | none => rw [ht] at h3; cases h2 <;> simp_all
      | some m =>
        rw [ht] at h3
        simp only [Option.elim, Option.getD_some] at h3 ⊢
        omega

/-- Every annotation's message length is bounded by the computed `spacing`. -/
theorem strByteLen_le_spacing (fe : FormattedError) (row : List RAnnotation)
    (a : RAnnotation) (hrow : row ∈ fe.errors) (ha : a ∈ row) :
    strByteLen a.text ≤ fe.spacing := by
  rw [FormattedError.spacing]
  exact le_max?_getD _ _ (List.mem_map_of_mem _ (List.mem_flatten.mpr ⟨row, hrow, ha⟩))

/-- A column-disjoint row succeeds in `write_errors`. -/
theorem write_errors_total (row : List RAnnotation) (spacing : Nat)
    (hd : UnderlineDisjoint row) (hlen : ∀ a ∈ row, strByteLen a.text ≤ spacing) :
    ∃ out, FormattedError.write_errors row spacing = some out := by
  have hu := underlineMarks_eq_spec row 0 hd fun a _ => Nat.zero_le _
  have hstrict : List.Chain' (fun x y => x.col_number < y.col_number) row :=
    hd.imp fun a b h => by omega
  have he := errorLines_eq_connectorLinesSpec spacing row hlen hstrict
  have hout : FormattedError.write_errors row spacing =
      some (("     | ".toList ++ List.replicate spacing ' ' ++ [' '] ++
        underlineRowSpec row 0 ++ ['\n']) ++ (connectorLinesSpec spacing row).flatten) := by
    rw [FormattedError.write_errors, FormattedError.write_underlines, hu, he]
    rfl
  exact ⟨_, hout⟩

theorem renderBody_total (spacing fln : Nat) :
    ∀ (errss : List (List RAnnotation)) (lines : List (List Char)) (idx : Nat),
      (∀ row ∈ errss, UnderlineDisjoint row ∧ ∀ a ∈ row, strByteLen a.text ≤ spacing) →
      ∃ out, renderBody spacing fln idx lines errss = some out := by
  intro errss
  induction errss with
  | nil =>
    intro lines idx _
    cases lines <;> exact ⟨[], rfl⟩
  | cons errs rest ih =>
    intro lines idx hrows
    cases lines with
    | nil => exact ⟨[], rfl⟩
    | cons line lines' =>
      obtain ⟨hd, hlen⟩ := hrows errs (List.mem_cons_self errs rest)
      obtain ⟨e, he⟩ := write_errors_total errs spacing hd hlen
      obtain ⟨r, hr⟩ := ih lines' (idx + 1)
        fun row h => hrows row (List.mem_cons_of_mem errs h)
      have hout : renderBody spacing fln idx (line :: lines') (errs :: rest) =
          some (FormattedError.write_line line spacing (idx + fln + 1) ++ e ++
            "     |\n".toList ++ r) := by
        rw [renderBody, he, hr]
        rfl
      exact ⟨_, hout⟩

/-- **C10.** Rendering a `FormattedError` is total only under the unstated
precondition that the annotations of each line are column-disjoint: when every
row satisfies it (each annotation starting at or after the end of the previous
annotation's marker, which in particular makes the connector-row columns
strictly increasing), rendering never panics; but for the `FormattedError`
built from an `AnnotatedError` carrying two annotations on the same span, the
column-gap subtractions underflow and rendering panics (modelled as `none`),
even though the error taxonomy never flags overlapping annotations. -/
theorem FormattedError.render_totality :
    (∀ fe : FormattedError, (∀ row ∈ fe.errors, UnderlineDisjoint row) →
      ∃ out, fe.render = some out) ∧
    (∃ fe, (ErrorReporter.non_file_input "ab".toList).format_error
        (AnnotatedError.with_annotation
          (AnnotatedError.with_annotation
            (AnnotatedError.new ⟨⟨0, 0, 0⟩, ⟨0, 1, 1⟩⟩ "m".toList)
            ⟨⟨0, 0, 0⟩, ⟨0, 1, 1⟩⟩ "x".toList)
          ⟨⟨0, 0, 0⟩, ⟨0, 1, 1⟩⟩ "y".toList) = some fe ∧
      fe.render = none) := by
  constructor
  · intro fe hd
    obtain ⟨body, hbody⟩ := renderBody_total fe.spacing fe.first_line_number fe.errors
      (strLines fe.text) 0
      (fun row hrow => ⟨hd row hrow, fun a ha => strByteLen_le_spacing fe row a hrow ha⟩)
    have hout : fe.render = some (fe.write_header ++ "     |\n".toList ++ body) := by
      rw [FormattedError.render, hbody]
      rfl
    exact ⟨_, hout⟩
  · exact ⟨⟨⟨0, 0, 0⟩, "m".toList, none, 0, "ab".toList,
      [[⟨0, 1, "x".toList⟩, ⟨0, 1, "y".toList⟩]]⟩, by decide, by decide⟩

/-- Closed instance of C10: a `FormattedError` with a single one-annotation
row renders successfully. -/
theorem FormattedError.render_totality_witness :
    (∀ row ∈ (FormattedError.mk ⟨0, 0, 0⟩ "m".toList none 0 "ab".toList
        [[⟨0, 1, "x".toList⟩]]).errors, UnderlineDisjoint row) ∧
    ∃ out, (FormattedError.mk ⟨0, 0, 0⟩ "m".toList none 0 "ab".toList
        [[⟨0, 1, "x".toList⟩]]).render = some out :=
  have hd : ∀ row ∈ (FormattedError.mk ⟨0, 0, 0⟩ "m".toList none 0 "ab".toList
      [[⟨0, 1, "x".toList⟩]]).errors, UnderlineDisjoint row := by
    intro row hrow
    rw [show (FormattedError.mk ⟨0, 0, 0⟩ "m".toList none 0 "ab".toList
      [[⟨0, 1, "x".toList⟩]]).errors = [[⟨0, 1, "x".toList⟩]] from rfl,
      List.mem_singleton] at hrow
    subst hrow
    simp [UnderlineDisjoint]
  ⟨hd, FormattedError.render_totality.1 _ hd⟩

/-! ## C6: the annotation matrix -/

theorem matrixInsert_spec (first : Nat) :
    ∀ (anns : List Annotation) (m : List (List RAnnotation)),
      (∀ a ∈ anns, a.span.start.line = a.span.endPos.line ∧
        first ≤ a.span.start.line ∧ a.span.start.line - first < m.length ∧
        a.span.start.col ≤ a.span.endPos.col) →
      ∃ m', matrixInsert first anns m = some m' ∧ m'.length = m.length ∧
        ∀ i : Nat, m'[i]? = (m[i]?).map fun row =>
          row ++ ((anns.filter fun a => a.span.start.line = first + i).map
            Annotation.toRecord) := by
  intro anns
  induction anns with
  | nil =>
    intro m _
    refine ⟨m, rfl, rfl, ?_⟩
    intro i
    cases h : m[i]? <;> simp [List.filter_nil]
  | cons a rest ih =>
    intro m hyp
    obtain ⟨hsl, hlo, hidx, hcol⟩ := hyp a (List.mem_cons_self a rest)
    have hins : matrixInsert first (a :: rest) m =
        matrixInsert first rest
          (m.set (a.span.start.line - first)
            (m.get ⟨a.span.start.line - first, hidx⟩ ++ [a.toRecord])) := by
      rw [matrixInsert, if_neg (by omega), if_neg (by omega), if_neg (by omega),
        dif_pos hidx]
      rfl
    set idx := a.span.start.line - first with hidxdef
    set m₂ := m.set idx (m.get ⟨idx, hidx⟩ ++ [a.toRecord]) with hm2
    have hlen₂ : m₂.length = m.length := by rw [hm2, List.length_set]
    obtain ⟨m', hm', hlen', hget'⟩ := ih m₂ (by
      intro x hx
      obtain ⟨h1, h2, h3, h4⟩ := hyp x (List.mem_cons_of_mem a hx)
      exact ⟨h1, h2, by omega, h4⟩)
    refine ⟨m', by rw [hins, hm'], by omega, ?_⟩
    intro i
    rw [hget' i]
    by_cases hi : idx = i
    · subst hi
      have hset : m₂[idx]? = some (m.get ⟨idx, hidx⟩ ++ [a.toRecord]) :=
        List.getElem?_set_self hidx
      rw [hset, List.getElem?_eq_getElem hidx]
      have hfil : ((a :: rest).filter fun x => x.span.start.line = first + idx) =
          a :: (rest.filter fun x => x.span.start.line = first + idx) := by
        rw [List.filter_cons, if_pos (by simp; omega)]
      rw [hfil, List.map_cons]
      simp [List.append_assoc]
    · have hset : m₂[i]? = m[i]? := List.getElem?_set_ne hi
      rw [hset]
      have hfil : ((a :: rest).filter fun x => x.span.start.line = first + i) =
          rest.filter fun x => x.span.start.line = first + i := by
        rw [List.filter_cons, if_neg (by simp; omega)]
      rw [hfil]

/-- **C6.** For an `AnnotatedError` whose annotations are all single-line (and
whose positions are mutually consistent, i.e. each annotation's line lies
between the bounds' lines and its columns are ordered), the annotation matrix
has exactly `last_line - first_line + 1` rows; row `i` holds, sorted by
ascending start column, exactly the records of the annotations whose span
starts on line `first_line + i` — independent of the primary span's line —
and a line in range with no annotation gets an empty row. -/
theorem AnnotatedError.error_matrix_spec (e : AnnotatedError)
    (hsl : ∀ a ∈ e.annotations, a.span.start.line = a.span.endPos.line)
    (hcol : ∀ a ∈ e.annotations, a.span.start.col ≤ a.span.endPos.col)
    (hlo : ∀ a ∈ e.annotations, e.bounds.1.line ≤ a.span.start.line)
    (hhi : ∀ a ∈ e.annotations, a.span.start.line ≤ e.bounds.2.line)
    (hfl : e.bounds.1.line ≤ e.bounds.2.line) :
    ∃ m, e.error_matrix = some m ∧
      m.length = e.bounds.2.line - e.bounds.1.line + 1 ∧
      ∀ i : Nat, i < m.length →
        ∃ row, m[i]? = some row ∧ List.Sorted colLE row ∧
          row.Perm ((e.annotations.filter fun a =>
            a.span.start.line = e.bounds.1.line + i).map Annotation.toRecord) := by
  have htot : (List.replicate (e.bounds.2.line - e.bounds.1.line + 1)
      ([] : List RAnnotation)).length = e.bounds.2.line - e.bounds.1.line + 1 :=
    List.length_replicate _ _
  obtain ⟨m₀, hm₀, hlen₀, hget₀⟩ := matrixInsert_spec e.bounds.1.line e.annotations
    (List.replicate (e.bounds.2.line - e.bounds.1.line + 1) []) (by
      intro a ha
      refine ⟨hsl a ha, hlo a ha, ?_, hcol a ha⟩
      rw [htot]
      have h1 := hlo a ha
      have h2 := hhi a ha
      omega)
  refine ⟨m₀.map fun anns => anns.insertionSort colLE, ?_, ?_, ?_⟩
  · rw [AnnotatedError.error_matrix]
    simp only [if_neg (by omega : ¬ e.bounds.2.line < e.bounds.1.line)]
    rw [hm₀]
    rfl
  · rw [List.length_map, hlen₀, htot]
  · intro i hi
    rw [List.length_map, hlen₀, htot] at hi
    have hrep : (List.replicate (e.bounds.2.line - e.bounds.1.line + 1)
        ([] : List RAnnotation))[i]? = some [] := by
      rw [List.getElem?_replicate, if_pos hi]
    have hrow : m₀[i]? = some ((e.annotations.filter fun a =>
        a.span.start.line = e.bounds.1.line + i).map Annotation.toRecord) := by
      rw [hget₀ i, hrep]
      rfl
    refine ⟨_, ?_, List.sorted_insertionSort colLE _, List.perm_insertionSort colLE _⟩
    rw [List.getElem?_map, hrow]
    rfl

/-- Closed instance of C6 at the `error_matrix_for` test of `error.rs`: three
annotations on `"line 1\nline 2\nline3"`, two rows, the second row sorted by
column. -/
theorem AnnotatedError.error_matrix_spec_witness :
    (∀ a ∈ (AnnotatedError.with_annotation
        (AnnotatedError.with_annotation
          (AnnotatedError.with_annotation
            (AnnotatedError.new ⟨⟨0, 0, 0⟩, ⟨0, 6, 6⟩⟩
              "<insert general message here>".toList)
            ⟨⟨0, 0, 0⟩, ⟨0, 6, 6⟩⟩ "first line".toList)
          ⟨⟨1, 0, 7⟩, ⟨1, 6, 13⟩⟩ "second line".toList)
        ⟨⟨1, 5, 12⟩, ⟨1, 6, 13⟩⟩ "second line, but better".toList).annotations,
      a.span.start.line = a.span.endPos.line ∧ a.span.start.col ≤ a.span.endPos.col) ∧
    ∃ m, (AnnotatedError.with_annotation
        (AnnotatedError.with_annotation
          (AnnotatedError.with_annotation
            (AnnotatedError.new ⟨⟨0, 0, 0⟩, ⟨0, 6, 6⟩⟩
              "<insert general message here>".toList)
            ⟨⟨0, 0, 0⟩, ⟨0, 6, 6⟩⟩ "first line".toList)
          ⟨⟨1, 0, 7⟩, ⟨1, 6, 13⟩⟩ "second line".toList)
        ⟨⟨1, 5, 12⟩, ⟨1, 6, 13⟩⟩ "second line, but better".toList).error_matrix =
        some m ∧ m.length = 2 := by
  constructor
  · decide
  · obtain ⟨m, hm, hlen, _⟩ := AnnotatedError.error_matrix_spec
      (AnnotatedError.with_annotation
        (AnnotatedError.with_annotation
          (AnnotatedError.with_annotation
            (AnnotatedError.new ⟨⟨0, 0, 0⟩, ⟨0, 6, 6⟩⟩
              "<insert general message here>".toList)
            ⟨⟨0, 0, 0⟩, ⟨0, 6, 6⟩⟩ "first line".toList)
          ⟨⟨1, 0, 7⟩, ⟨1, 6, 13⟩⟩ "second line".toList)
        ⟨⟨1, 5, 12⟩, ⟨1, 6, 13⟩⟩ "second line, but better".toList)
      (by decide) (by decide) (by decide) (by decide) (by decide)
    exact ⟨m, hm, by rw [hlen]; decide⟩

/-! ## C7: the snippet-lines/matrix-rows invariant (a bug) -/

/-- **C7 fails on the code.** `reporter.rs` documents the invariant
`text.lines().count() == errors.len()` on `FormattedError`, but for an error
whose bounds sit on an empty line (here offset 2, line 1 of `"a\n\nb"`, a
span produced by `split_at`), the snippet is empty — 0 lines — while the
matrix has 1 per-line entry.  The rendering loop zips the two lists and
silently drops the row. -/
theorem snippet_lines_matrix_mismatch :
    (∃ p q, (ErrorReporter.non_file_input "a\n\nb".toList).spanned_str.split_at 2 =
        some p ∧ p.2.split_at 0 = some q ∧ q.1.span = ⟨⟨1, 0, 2⟩, ⟨1, 0, 2⟩⟩) ∧
    ∃ fe, (ErrorReporter.non_file_input "a\n\nb".toList).format_error
        (AnnotatedError.new ⟨⟨1, 0, 2⟩, ⟨1, 0, 2⟩⟩ "msg".toList) = some fe ∧
      (strLines fe.text).length = 0 ∧ fe.errors.length = 1 := by
  refine ⟨⟨_, _, rfl, rfl, rfl⟩, ⟨⟨1, 0, 2⟩, "msg".toList, none, 1, [], [[]]⟩,
    by decide, rfl, rfl⟩

end Lisbeth
